import Mathlib

/-!
Verification development for the Mundo Tango multi-agent orchestration core.

The definitions below are a shallow embedding of the TypeScript source:
`server/orchestration/task-orchestrator.ts` (TaskOrchestrator: decompose,
assignTasks, executeParallel, selectBestAgent, getDependencyIds),
`server/orchestration/agent-messenger.ts` (AgentMessenger: sendMessage,
handoffTask), `server/storage.ts` (updateAgentLoad) and
`server/deployment/grafana-dashboards.ts` (MetricsCollector:
collectAIMetrics, calculateCostSavings).  JavaScript numbers are modelled
as rationals (integers for plain counters), database writes as explicit
state values, and fallible database operations as explicit outcome
parameters.
-/

namespace MundoTango

/-- Case-folded character list of a string; models `s.toLowerCase()`. -/
def lowerChars (s : String) : List Char := s.toList.map Char.toLower

/-- Models `hay.toLowerCase().includes(needle.toLowerCase())`. -/
def strIncludes (hay needle : String) : Bool :=
  decide (lowerChars needle <:+: lowerChars hay)

/-- Task status values used by the orchestrator (`agentTasks.status`). -/
inductive TStatus
  | pending
  | assigned
  | inProgress
  | completed
  | failed
deriving DecidableEq, Repr

/-- A row of `agentCapabilities` as read by the orchestrator. -/
structure AgentCapability where
  agentId : String
  specialties : List String
  currentLoad : Int
  maxLoad : Int
  successRate : ℚ
  isActive : Bool
deriving DecidableEq, Repr

/-- A sub-task of a decomposition (`SubTask` interface in the source). -/
structure SubTask where
  id : String
  type : String
  description : String
  estimatedMinutes : Int
  requiredSpecialties : List String
  priority : Int
deriving DecidableEq, Repr

/-- A dependency record of a decomposition (`TaskDependency` interface). -/
structure TaskDependency where
  taskId : String
  dependsOn : List String
deriving DecidableEq, Repr

/-- Count of the task's required specialties that substring-match some agent
specialty; models the `matchCount` computed inside `selectBestAgent`
(`agentSpecialties.some(spec => spec.toLowerCase().includes(req.toLowerCase()))`). -/
def matchCount (sub : SubTask) (agent : AgentCapability) : Nat :=
  (sub.requiredSpecialties.filter (fun req =>
    agent.specialties.any (fun sp => strIncludes sp req))).length

/-- The score computed inside `selectBestAgent`:
`successScore * capacityScore * specialtyBonus` with
`loadRatio = currentLoad / maxLoad`, `capacityScore = max(0, 1 - loadRatio)`,
`successScore = successRate / 100`, `specialtyBonus = 1 + matchCount * 0.2`. -/
def agentScore (sub : SubTask) (agent : AgentCapability) : ℚ :=
  let loadRatio : ℚ := (agent.currentLoad : ℚ) / (agent.maxLoad : ℚ)
  let capacityScore : ℚ := max 0 (1 - loadRatio)
  let successScore : ℚ := agent.successRate / 100
  let specialtyBonus : ℚ := 1 + (matchCount sub agent : ℚ) * 0.2
  successScore * capacityScore * specialtyBonus

/-- Earliest maximiser of `f` in a list.  A stable descending sort followed by
taking element 0 (the source's `scored.sort((a, b) => b.score - a.score)`
then `scored[0]`) returns the first element attaining the maximum, which is
exactly this fold. -/
def argmaxBy {α : Type} (f : α → ℚ) : List α → Option α
  | [] => none
  | c :: rest => some (rest.foldl (fun best a => if f a > f best then a else best) c)

/-- Earliest minimiser of `f` in a list (stable ascending sort, element 0). -/
def argminBy {α : Type} (f : α → ℚ) : List α → Option α
  | [] => none
  | c :: rest => some (rest.foldl (fun best a => if f a < f best then a else best) c)

/-- `TaskOrchestrator.selectBestAgent`: scores every candidate and returns the
first candidate with the highest score (`scored[0]?.agent`); `none` models the
`undefined` result on an empty candidate list. -/
def selectBestAgent (candidates : List AgentCapability) (sub : SubTask) :
    Option AgentCapability :=
  argmaxBy (agentScore sub) candidates


/-! ## Graph Scheduler (`TaskOrchestrator.executeParallel`)

The source loads all `agentTasks` rows of a build, takes as first wave the
tasks with an empty dependency list and status `assigned`, marks each wave
`in_progress`, records the wave's ids in `completedIds` (its simulation of
the wave completing), and repeats with the tasks whose dependency ids are
all contained in `completedIds`, until no ready task remains.  There is no
cycle detection and no error path. -/

/-- A row of `agentTasks` as consumed by `executeParallel`. -/
structure TaskRow where
  id : Nat
  status : TStatus
  dependencies : List Nat
deriving DecidableEq, Repr

/-- The initial ready set: `deps.length === 0 && t.status === 'assigned'`. -/
def ready0 (graph : List TaskRow) : List TaskRow :=
  graph.filter (fun t => t.dependencies.isEmpty && decide (t.status = TStatus.assigned))

/-- The ready set of later waves: not yet dispatched, status `assigned`, and
every dependency id already in `completedIds`. -/
def readyNext (graph : List TaskRow) (completed : List Nat) : List TaskRow :=
  graph.filter (fun t =>
    !(decide (t.id ∈ completed)) && decide (t.status = TStatus.assigned) &&
      t.dependencies.all (fun d => decide (d ∈ completed)))

/-- The wave loop of `executeParallel`.  Each iteration dispatches the ready
set, appends its ids to `completedIds`, and recomputes the ready set.  The
fuel argument only bounds the iteration count; every nonempty wave adds a
fresh id to `completedIds`, so `graph.length + 1` iterations are never
exhausted. -/
def wavesFrom (graph : List TaskRow) : Nat → List Nat → List TaskRow → List (List TaskRow)
  | 0, _, _ => []
  | Nat.succ fuel, completed, ready =>
    if ready.isEmpty then []
    else
      ready :: wavesFrom graph fuel (completed ++ ready.map (fun t => t.id))
        (readyNext graph (completed ++ ready.map (fun t => t.id)))

/-- `executeParallel` for one build: the sequence of dispatched waves.  Wave
`n` is dispatched (status set to `in_progress`) only after all ids of waves
`< n` are in `completedIds`. -/
def waves (graph : List TaskRow) : List (List TaskRow) :=
  wavesFrom graph (graph.length + 1) [] (ready0 graph)

/-- Ids of the first `i` waves: the contents of `completedIds` at the moment
wave `i` is dispatched. -/
def idsUpTo : List (List TaskRow) → Nat → List Nat
  | _, 0 => []
  | [], _ + 1 => []
  | w :: ws, i + 1 => w.map (fun t => t.id) ++ idsUpTo ws i

/-! ## Task assignment (`TaskOrchestrator.assignTasks`, `getDependencyIds`,
`storage.updateAgentLoad`) -/

/-- `TaskOrchestrator.getDependencyIds`: looks up the sub-task's dependency
record, then returns `[]` in both branches — the source never maps local
decomposition ids to persisted task ids
(`// For now, return empty array since we don't have task ID mapping yet`). -/
def getDependencyIds (taskId : String) (dependencies : List TaskDependency) : List Nat :=
  match dependencies.find? (fun d => d.taskId == taskId) with
  | none => []
  | some _ => []

/-- A row inserted into `agentTasks` by `assignTasks`. -/
structure PersistedTask where
  buildId : String
  type : String
  description : String
  assignedAgent : String
  status : TStatus
  priority : Int
  estimatedMinutes : Int
  dependencies : List Nat
deriving DecidableEq, Repr

/-- The specialty filter of `assignTasks` (two-directional substring match:
`spec.includes(req) || req.includes(spec)`, both lowercased). -/
def matchesTask (sub : SubTask) (agent : AgentCapability) : Bool :=
  sub.requiredSpecialties.any (fun req =>
    agent.specialties.any (fun sp => strIncludes sp req || strIncludes req sp))

/-- `storage.updateAgentLoad` / the inline load update of `assignTasks`:
`SET currentLoad = currentLoad + 1 WHERE agentId = …` — an unconditional
increment with no `maxLoad` guard. -/
def incrementLoad (pool : List AgentCapability) (agentId : String) : List AgentCapability :=
  pool.map (fun a =>
    if a.agentId = agentId then { a with currentLoad := a.currentLoad + 1 } else a)

/-- The fallback of `assignTasks` when no agent matches:
`candidates.find(a => a.agentId === 'agent-131-vibe-coding') || candidates[0]`
pushed into the empty matching list.  `none` models the `undefined` entry (and
subsequent runtime failure) when `candidates` itself is empty. -/
def fallbackCandidates (candidates : List AgentCapability) : Option (List AgentCapability) :=
  match candidates.find? (fun a => a.agentId == "agent-131-vibe-coding") with
  | some a => some [a]
  | none =>
    match candidates with
    | [] => none
    | c :: _ => some [c]

/-- One iteration of the `assignTasks` loop: filter active agents, filter by
specialty match (with fallback), select the best agent, persist the task row
(with `getDependencyIds`'s dependency list), and increment the chosen agent's
load in the pool. -/
def assignOne (pool : List AgentCapability) (deps : List TaskDependency)
    (buildId : String) (sub : SubTask) : Option (PersistedTask × List AgentCapability) :=
  let candidates := pool.filter (fun a => a.isActive)
  let matching := candidates.filter (matchesTask sub)
  match (if matching.isEmpty then fallbackCandidates candidates else some matching) with
  | none => none
  | some ms =>
    match selectBestAgent ms sub with
    | none => none
    | some best =>
      some ({ buildId := buildId, type := sub.type, description := sub.description,
              assignedAgent := best.agentId, status := TStatus.assigned,
              priority := sub.priority, estimatedMinutes := sub.estimatedMinutes,
              dependencies := getDependencyIds sub.id deps },
            incrementLoad pool best.agentId)

/-- The `assignTasks` loop over all sub-tasks, threading the agent pool.  A
`none` from `assignOne` models the runtime failure on an empty agent table,
aborting the loop (rows already inserted remain persisted). -/
def assignTasksAux (deps : List TaskDependency) (buildId : String) :
    List AgentCapability → List SubTask → List PersistedTask × List AgentCapability
  | pool, [] => ([], pool)
  | pool, sub :: rest =>
    match assignOne pool deps buildId sub with
    | none => ([], pool)
    | some (row, pool') =>
      let r := assignTasksAux deps buildId pool' rest
      (row :: r.1, r.2)

/-! ## Task decomposition (`TaskOrchestrator.decompose`) -/

/-- The parsed JSON payload of the external model call. -/
structure DecomposedPayload where
  subTasks : List SubTask
  dependencies : List TaskDependency
deriving DecidableEq, Repr

/-- The observable outcomes of the external model call inside `decompose`:
the OpenAI call throws, `JSON.parse` throws, or a payload is produced. -/
inductive ModelResponse
  | callFailure
  | unparsable
  | parsed (p : DecomposedPayload)
deriving DecidableEq, Repr

/-- Errors escaping `decompose`: the source defines no error class of its own
(`DecompositionError` does not exist in the repository); the underlying
exception of the model call or of `JSON.parse` propagates unchanged. -/
inductive OrchError
  | upstream
deriving DecidableEq, Repr

/-- The `TaskDecomposition` value returned by `decompose`. -/
structure TaskDecomposition where
  mainTaskId : Nat
  subTasks : List SubTask
  dependencies : List TaskDependency
deriving DecidableEq, Repr

/-- The main orchestration row `decompose` inserts after a successful parse. -/
def mainTaskRow (userRequest : String) : PersistedTask :=
  { buildId := "", type := "orchestration", description := userRequest,
    assignedAgent := "", status := TStatus.pending, priority := 10,
    estimatedMinutes := 0, dependencies := [] }

/-- `TaskOrchestrator.decompose`, as a function of the model call's outcome:
on a thrown call or an unparsable payload the exception propagates and nothing
is persisted; on a parsed payload the main orchestration row is inserted and
the sub-tasks and dependency records are returned verbatim — no validation of
dependency references is performed. -/
def decompose (userRequest : String) (mainTaskId : Nat) (resp : ModelResponse) :
    Except OrchError TaskDecomposition × List PersistedTask :=
  match resp with
  | ModelResponse.callFailure => (Except.error OrchError.upstream, [])
  | ModelResponse.unparsable => (Except.error OrchError.upstream, [])
  | ModelResponse.parsed p =>
    (Except.ok { mainTaskId := mainTaskId, subTasks := p.subTasks,
                 dependencies := p.dependencies },
     [mainTaskRow userRequest])

/-- The validation the specification describes: every dependency reference
resolves to a sub-task id of the same payload.  (Stated from the spec, to be
compared with `decompose`'s actual behaviour.) -/
def depsResolve (p : DecomposedPayload) : Bool :=
  p.dependencies.all (fun d =>
    d.dependsOn.all (fun r => p.subTasks.any (fun s => s.id == r)))

/-! ## Handoff messenger (`AgentMessenger.sendMessage`, `handoffTask`) -/

/-- A row of `agentCollaboration` as inserted by `sendMessage`. -/
structure MessageRow where
  fromAgentId : String
  toAgentId : String
  messageType : String
  priority : Int
  read : Bool
deriving DecidableEq, Repr

/-- A row of `agentTasks` as touched by `handoffTask`. -/
structure HandoffTaskRow where
  id : Nat
  assignedAgent : Option String
  status : TStatus
deriving DecidableEq, Repr

/-- The persistent state touched by the messenger. -/
structure OrchState where
  messages : List MessageRow
  tasks : List HandoffTaskRow
deriving DecidableEq, Repr

/-- Success or failure of one database operation. -/
inductive DbOutcome
  | ok
  | fail
deriving DecidableEq, Repr

/-- `AgentMessenger.sendMessage`: a single insert into `agentCollaboration`
(the WebSocket broadcast does not touch persistent state).  On failure the
exception propagates and the state is unchanged. -/
def sendMessage (msg : MessageRow) (o : DbOutcome) (st : OrchState) : OrchState × Bool :=
  match o with
  | DbOutcome.fail => (st, false)
  | DbOutcome.ok => ({ st with messages := st.messages ++ [msg] }, true)

/-- The `task_handoff` message built by `handoffTask`: fixed priority 9. -/
def handoffMessage (fromAgent toAgent : String) : MessageRow :=
  { fromAgentId := fromAgent, toAgentId := toAgent,
    messageType := "task_handoff", priority := 9, read := false }

/-- `AgentMessenger.handoffTask`: awaits `sendMessage`, then — in a separate,
non-transactional update — sets the task's `assignedAgent` to the receiving
agent and resets its status to `assigned`.  The two database outcomes are
explicit parameters; a failure of either write propagates as `false`. -/
def handoffTask (fromAgent toAgent : String) (taskId : Nat)
    (oMsg oUpd : DbOutcome) (st : OrchState) : OrchState × Bool :=
  match sendMessage (handoffMessage fromAgent toAgent) oMsg st with
  | (st1, false) => (st1, false)
  | (st1, true) =>
    match oUpd with
    | DbOutcome.fail => (st1, false)
    | DbOutcome.ok =>
      ({ st1 with tasks := st1.tasks.map (fun t =>
          if t.id = taskId then
            { t with assignedAgent := some toAgent, status := TStatus.assigned }
          else t) }, true)

/-! ## Cost metrics (`MetricsCollector` in `grafana-dashboards.ts`) -/

/-- The fields of `AIMetrics` used by `calculateCostSavings`. -/
structure AIMetrics where
  totalRequests : ℚ
  costPerRequest : ℚ
  totalCost : ℚ
deriving DecidableEq, Repr

/-- `MetricsCollector.collectAIMetrics`: returns hardcoded values
(`totalRequests: 3456, costPerRequest: 0.012, totalCost: 41.47`); it reads no
recorded usage. -/
def collectAIMetrics : AIMetrics :=
  { totalRequests := 3456, costPerRequest := 0.012, totalCost := 41.47 }

/-- The record returned by `calculateCostSavings`. -/
structure CostSavings where
  savingsPercent : ℚ
  actualCost : ℚ
  baselineCost : ℚ
deriving DecidableEq, Repr

/-- `MetricsCollector.recordMetric`: appends a value under a metric name in
the collector's in-memory `metrics` map. -/
def recordMetric (name : String) (value : ℚ) (recorded : List (String × List ℚ)) :
    List (String × List ℚ) :=
  match recorded.find? (fun p => p.1 == name) with
  | none => recorded ++ [(name, [value])]
  | some _ => recorded.map (fun p => if p.1 = name then (p.1, p.2 ++ [value]) else p)

/-- `MetricsCollector.calculateCostSavings`, given the collector's recorded
metric state (which the method never reads): `actualCost` and the request
count come from the hardcoded `collectAIMetrics`, the baseline prices every
request at Claude Sonnet's `$0.15`, and
`savingsPercent = (baselineCost - actualCost) / baselineCost * 100`. -/
def calculateCostSavings (recorded : List (String × List ℚ)) : CostSavings :=
  let ai := collectAIMetrics
  let actualCost := ai.totalCost
  let baselineCost := ai.totalRequests * 0.15
  { savingsPercent := (baselineCost - actualCost) / baselineCost * 100,
    actualCost := actualCost, baselineCost := baselineCost }


/-! ## Model Router

The file `server/ai/model-router.ts` is imported and used by
`server/routes.ts` but is not part of the available sources (the repository
only ships a design draft of it inside a planning document).  Its behaviour
is therefore modelled from the specification (§4.4). -/

/-- A `ModelProfile` of the Model Router registry. -/
structure ModelProfile where
  model : String
  costPerRequest : ℚ
  avgResponseTime : ℚ
  successRateByTask : List (String × ℚ)
  available : Bool
deriving DecidableEq, Repr

/-- Modelled from the spec: `NoModelAvailableError` (fatal — no model
configured). -/
inductive RouterError
  | noModelAvailable
deriving DecidableEq, Repr

/-- The `(model, reasoning)` pair returned by `SelectModel`. -/
structure ModelSelection where
  model : String
  reasoning : String
deriving DecidableEq, Repr

/-- Historical success rate of a model for a task type, when recorded. -/
def rateFor (m : ModelProfile) (taskType : String) : Option ℚ :=
  (m.successRateByTask.find? (fun p => p.1 == taskType)).map Prod.snd

/-- Whether a model's historical success rate for `taskType` is `≥ 0.75`. -/
def qualifies (m : ModelProfile) (taskType : String) : Bool :=
  match rateFor m taskType with
  | some r => decide ((0.75 : ℚ) ≤ r)
  | none => false

/-- The availability filter: candidates with `available = true`. -/
def availableModels (registry : List ModelProfile) : List ModelProfile :=
  registry.filter (fun m => m.available)

/-- The threshold filter applied after the availability filter. -/
def capableModels (registry : List ModelProfile) (taskType : String) : List ModelProfile :=
  (availableModels registry).filter (fun m => qualifies m taskType)

/-- Whether a supplied budget ceiling is below the low-cost threshold. -/
def budgetLow : Option ℚ → Bool
  | some b => decide (b < (0.05 : ℚ))
  | none => false

/-- Reasoning string of the general-purpose fallback. -/
def fallbackReasoning : String :=
  "No available model meets the success threshold; falling back to the cheapest available model"

/-- Reasoning string of the budget-constrained branch. -/
def budgetReasoning : String :=
  "Budget below low-cost threshold; picking the cheapest qualifying model"

/-- Reasoning string of the quality-per-dollar branch. -/
def valueReasoning : String :=
  "Picking the qualifying model with the best success rate per dollar"

/-- Modelled from the spec: `ModelRouter.selectModel` of the missing
`server/ai/model-router.ts`.  First filters candidates to `available = true`
and fails with `NoModelAvailableError` if none remain; among available models
filters to historical success rate `≥ 0.75` for the task type, falling back
to the cheapest available model (with an explanatory reasoning string) if
none qualify; picks the cheapest qualifying model when a budget below the
low-cost threshold is supplied, and otherwise the qualifying model maximising
`successRate / costPerRequest`. -/
def selectModel (registry : List ModelProfile) (taskType : String) (budget : Option ℚ) :
    Except RouterError ModelSelection :=
  if (availableModels registry).isEmpty then Except.error RouterError.noModelAvailable
  else if (capableModels registry taskType).isEmpty then
    match argminBy (fun m => m.costPerRequest) (availableModels registry) with
    | some m => Except.ok { model := m.model, reasoning := fallbackReasoning }
    | none => Except.error RouterError.noModelAvailable
  else if budgetLow budget then
    match argminBy (fun m => m.costPerRequest) (capableModels registry taskType) with
    | some m => Except.ok { model := m.model, reasoning := budgetReasoning }
    | none => Except.error RouterError.noModelAvailable
  else
    match argmaxBy (fun m => (rateFor m taskType).getD 0 / m.costPerRequest)
        (capableModels registry taskType) with
    | some m => Except.ok { model := m.model, reasoning := valueReasoning }
    | none => Except.error RouterError.noModelAvailable

/-! ## Concrete example inputs used by witnesses and counterexamples -/

/-- Example agent with one unit of spare capacity. -/
def agentLow : AgentCapability :=
  { agentId := "agent-a", specialties := ["backend"], currentLoad := 1,
    maxLoad := 5, successRate := 90, isActive := true }

/-- Example agent with the same profile but higher load. -/
def agentHigh : AgentCapability :=
  { agentId := "agent-b", specialties := ["backend"], currentLoad := 3,
    maxLoad := 5, successRate := 90, isActive := true }

/-- Example agent with success rate 0 and load 1 (tie-score case). -/
def agentZeroLow : AgentCapability :=
  { agentId := "agent-a", specialties := ["backend"], currentLoad := 1,
    maxLoad := 5, successRate := 0, isActive := true }

/-- Example agent with success rate 0 and load 3 (tie-score case). -/
def agentZeroHigh : AgentCapability :=
  { agentId := "agent-b", specialties := ["backend"], currentLoad := 3,
    maxLoad := 5, successRate := 0, isActive := true }

/-- Example agent already at its maximum load. -/
def agentFull : AgentCapability :=
  { agentId := "agent-a", specialties := ["backend"], currentLoad := 1,
    maxLoad := 1, successRate := 100, isActive := true }

/-- Example sub-task requiring the `backend` specialty. -/
def subBackend : SubTask :=
  { id := "t1", type := "backend", description := "api", estimatedMinutes := 30,
    requiredSpecialties := ["backend"], priority := 5 }

/-- Example build whose task 1 and task 2 form a dependency cycle while
task 3 is independent. -/
def cyclicGraph : List TaskRow :=
  [{ id := 1, status := TStatus.assigned, dependencies := [2] },
   { id := 2, status := TStatus.assigned, dependencies := [1] },
   { id := 3, status := TStatus.assigned, dependencies := [] }]

/-- The two tasks of `cyclicGraph` forming the cycle. -/
def cyclicPair : List TaskRow :=
  [{ id := 1, status := TStatus.assigned, dependencies := [2] },
   { id := 2, status := TStatus.assigned, dependencies := [1] }]

/-- Example two-task chain: task 2 depends on task 1. -/
def chainGraph : List TaskRow :=
  [{ id := 1, status := TStatus.assigned, dependencies := [] },
   { id := 2, status := TStatus.assigned, dependencies := [1] }]

/-- Example decomposition payload whose dependency record references a
sub-task id (`"missing"`) that no sub-task of the payload carries. -/
def danglingPayload : DecomposedPayload :=
  { subTasks := [subBackend],
    dependencies := [{ taskId := "t1", dependsOn := ["missing"] }] }

/-- Example messenger state: one in-progress task, no messages. -/
def handoffState : OrchState :=
  { messages := [],
    tasks := [{ id := 1, assignedAgent := some "w1", status := TStatus.inProgress }] }

/-- Example registry entry: unavailable model. -/
def modelUnavailable : ModelProfile :=
  { model := "gemini-flash", costPerRequest := 0.001, avgResponseTime := 4000,
    successRateByTask := [("planning", 0.95)], available := false }

/-- Example registry entry: available, cheap. -/
def modelCheap : ModelProfile :=
  { model := "gpt-4o", costPerRequest := 0.12, avgResponseTime := 7000,
    successRateByTask := [("multimodal", 0.93)], available := true }

/-- Example registry entry: available, expensive. -/
def modelPricey : ModelProfile :=
  { model := "claude-sonnet", costPerRequest := 0.15, avgResponseTime := 8000,
    successRateByTask := [("code_review", 0.95)], available := true }

/-- The task row `assignOne` persists for `subBackend` under build `b1` when
agent `agent-a` is selected. -/
def rowBackend : PersistedTask :=
  { buildId := "b1", type := "backend", description := "api",
    assignedAgent := "agent-a", status := TStatus.assigned,
    priority := 5, estimatedMinutes := 30, dependencies := [] }

/-- `agentLow` after one load increment. -/
def agentLowAfter : AgentCapability :=
  { agentId := "agent-a", specialties := ["backend"], currentLoad := 2,
    maxLoad := 5, successRate := 90, isActive := true }

/-- `agentFull` after one load increment: load 2 beyond its `maxLoad` of 1. -/
def agentFullAfter : AgentCapability :=
  { agentId := "agent-a", specialties := ["backend"], currentLoad := 2,
    maxLoad := 1, successRate := 100, isActive := true }

/-- The dependency-free task of `chainGraph`. -/
def taskOne : TaskRow :=
  { id := 1, status := TStatus.assigned, dependencies := [] }

/-- The cycle-independent task of `cyclicGraph`. -/
def taskThree : TaskRow :=
  { id := 3, status := TStatus.assigned, dependencies := [] }

/-- The first member of the cycle of `cyclicGraph`. -/
def taskCycleA : TaskRow :=
  { id := 1, status := TStatus.assigned, dependencies := [2] }

/-! ## General lemmas -/

section ArgmaxLemmas

variable {α : Type} (f : α → ℚ)

theorem foldl_argmax_mem (l : List α) : ∀ c : α,
    l.foldl (fun best a => if f a > f best then a else best) c ∈ c :: l := by
  induction l with
  | nil => intro c; simp [List.foldl]
  | cons a l ih =>
    intro c
    simp only [List.foldl]
    rcases List.mem_cons.mp (ih (if f a > f c then a else c)) with h | h
    · rw [h]
      by_cases hc : f a > f c
      · simp [hc]
      · simp [hc]
    · exact List.mem_cons_of_mem _ (List.mem_cons_of_mem _ h)

theorem foldl_argmax_le_start (l : List α) : ∀ c : α,
    f c ≤ f (l.foldl (fun best a => if f a > f best then a else best) c) := by
  induction l with
  | nil => intro c; simp [List.foldl]
  | cons a l ih =>
    intro c
    simp only [List.foldl]
    refine le_trans ?_ (ih (if f a > f c then a else c))
    by_cases hc : f a > f c
    · rw [if_pos hc]; exact le_of_lt hc
    · rw [if_neg hc]

theorem foldl_argmax_le_mem (l : List α) : ∀ c : α, ∀ x ∈ l,
    f x ≤ f (l.foldl (fun best a => if f a > f best then a else best) c) := by
  induction l with
  | nil => intro c x hx; cases hx
  | cons a l ih =>
    intro c x hx
    simp only [List.foldl]
    rcases List.mem_cons.mp hx with h | h
    · subst h
      refine le_trans ?_ (foldl_argmax_le_start f l (if f x > f c then x else c))
      by_cases hc : f x > f c
      · rw [if_pos hc]
      · rw [if_neg hc]; exact le_of_not_lt hc
    · exact ih (if f a > f c then a else c) x h

theorem foldl_argmax_le (l : List α) (c : α) :
    ∀ x ∈ c :: l, f x ≤ f (l.foldl (fun best a => if f a > f best then a else best) c) := by
  intro x hx
  rcases List.mem_cons.mp hx with h | h
  · subst h; exact foldl_argmax_le_start f l x
  · exact foldl_argmax_le_mem f l c x h

theorem argmaxBy_mem {l : List α} {a : α} (h : argmaxBy f l = some a) : a ∈ l := by
  cases l with
  | nil => simp [argmaxBy] at h
  | cons c rest =>
    simp only [argmaxBy, Option.some.injEq] at h
    exact h ▸ foldl_argmax_mem f rest c

theorem argmaxBy_le {l : List α} {a : α} (h : argmaxBy f l = some a) :
    ∀ x ∈ l, f x ≤ f a := by
  cases l with
  | nil => simp [argmaxBy] at h
  | cons c rest =>
    simp only [argmaxBy, Option.some.injEq] at h
    exact fun x hx => h ▸ foldl_argmax_le f rest c x hx

theorem foldl_argmin_mem (l : List α) : ∀ c : α,
    l.foldl (fun best a => if f a < f best then a else best) c ∈ c :: l := by
  induction l with
  | nil => intro c; simp [List.foldl]
  | cons a l ih =>
    intro c
    simp only [List.foldl]
    rcases List.mem_cons.mp (ih (if f a < f c then a else c)) with h | h
    · rw [h]
      by_cases hc : f a < f c
      · simp [hc]
      · simp [hc]
    · exact List.mem_cons_of_mem _ (List.mem_cons_of_mem _ h)

theorem foldl_argmin_le_start (l : List α) : ∀ c : α,
    f (l.foldl (fun best a => if f a < f best then a else best) c) ≤ f c := by
  induction l with
  | nil => intro c; simp [List.foldl]
  | cons a l ih =>
    intro c
    simp only [List.foldl]
    refine le_trans (ih (if f a < f c then a else c)) ?_
    by_cases hc : f a < f c
    · rw [if_pos hc]; exact le_of_lt hc
    · rw [if_neg hc]

theorem foldl_argmin_le_mem (l : List α) : ∀ c : α, ∀ x ∈ l,
    f (l.foldl (fun best a => if f a < f best then a else best) c) ≤ f x := by
  induction l with
  | nil => intro c x hx; cases hx
  | cons a l ih =>
    intro c x hx
    simp only [List.foldl]
    rcases List.mem_cons.mp hx with h | h
    · subst h
      refine le_trans (foldl_argmin_le_start f l (if f x < f c then x else c)) ?_
      by_cases hc : f x < f c
      · rw [if_pos hc]
      · rw [if_neg hc]; exact le_of_not_lt hc
    · exact ih (if f a < f c then a else c) x h

theorem foldl_argmin_le (l : List α) (c : α) :
    ∀ x ∈ c :: l, f (l.foldl (fun best a => if f a < f best then a else best) c) ≤ f x := by
  intro x hx
  rcases List.mem_cons.mp hx with h | h
  · subst h; exact foldl_argmin_le_start f l x
  · exact foldl_argmin_le_mem f l c x h

theorem argminBy_mem {l : List α} {a : α} (h : argminBy f l = some a) : a ∈ l := by
  cases l with
  | nil => simp [argminBy] at h
  | cons c rest =>
    simp only [argminBy, Option.some.injEq] at h
    exact h ▸ foldl_argmin_mem f rest c

theorem argminBy_le {l : List α} {a : α} (h : argminBy f l = some a) :
    ∀ x ∈ l, f a ≤ f x := by
  cases l with
  | nil => simp [argminBy] at h
  | cons c rest =>
    simp only [argminBy, Option.some.injEq] at h
    exact fun x hx => h ▸ foldl_argmin_le f rest c x hx

end ArgmaxLemmas

theorem readyNext_mem {graph : List TaskRow} {completed : List Nat} {t : TaskRow}
    (h : t ∈ readyNext graph completed) :
    t ∈ graph ∧ t.id ∉ completed ∧ t.status = TStatus.assigned ∧
      ∀ d ∈ t.dependencies, d ∈ completed := by
  have h' := List.mem_filter.mp h
  refine ⟨h'.1, ?_, ?_, ?_⟩
  · have := h'.2
    simp only [Bool.and_eq_true, Bool.not_eq_true', decide_eq_false_iff_not] at this
    exact this.1.1
  · have := h'.2
    simp only [Bool.and_eq_true, decide_eq_true_eq] at this
    exact this.1.2
  · have := h'.2
    simp only [Bool.and_eq_true, List.all_eq_true, decide_eq_true_eq] at this
    exact this.2

theorem ready0_mem {graph : List TaskRow} {t : TaskRow} (h : t ∈ ready0 graph) :
    t ∈ graph ∧ t.dependencies = [] ∧ t.status = TStatus.assigned := by
  have h' := List.mem_filter.mp h
  have h2 := h'.2
  simp only [Bool.and_eq_true, List.isEmpty_iff, decide_eq_true_eq] at h2
  exact ⟨h'.1, h2.1, h2.2⟩

theorem mem_ready0 {graph : List TaskRow} {t : TaskRow} (hg : t ∈ graph)
    (hd : t.dependencies = []) (hs : t.status = TStatus.assigned) : t ∈ ready0 graph := by
  refine List.mem_filter.mpr ⟨hg, ?_⟩
  simp [hd, hs]

/-- Dependency-order invariant of the wave loop: if every task of the current
ready set has all its dependencies in `completed`, then every task of wave `i`
has all its dependencies in `completed` extended by the ids of the waves
strictly before `i`. -/
theorem wavesFrom_deps (graph : List TaskRow) :
    ∀ fuel completed ready,
      (∀ t ∈ ready, ∀ d ∈ t.dependencies, d ∈ completed) →
      ∀ i w, (wavesFrom graph fuel completed ready).get? i = some w →
        ∀ t ∈ w, ∀ d ∈ t.dependencies,
          d ∈ completed ++ idsUpTo (wavesFrom graph fuel completed ready) i := by
  intro fuel
  induction fuel with
  | zero => intro completed ready _ i w hw; simp [wavesFrom] at hw
  | succ fuel ih =>
    intro completed ready hready i w hw t ht d hd
    by_cases hemp : ready.isEmpty
    · simp [wavesFrom, hemp] at hw
    · simp only [wavesFrom, hemp, if_neg, Bool.false_eq_true, not_false_eq_true, ite_false] at hw ⊢
      cases i with
      | zero =>
        simp only [List.get?] at hw
        cases hw
        simp only [idsUpTo, List.append_nil]
        exact hready t ht d hd
      | succ i =>
        simp only [List.get?] at hw
        have hnext : ∀ t' ∈ readyNext graph (completed ++ ready.map (fun t => t.id)),
            ∀ d' ∈ t'.dependencies, d' ∈ completed ++ ready.map (fun t => t.id) := by
          intro t' ht' d' hd'
          exact (readyNext_mem ht').2.2.2 d' hd'
        have := ih (completed ++ ready.map (fun t => t.id))
          (readyNext graph (completed ++ ready.map (fun t => t.id))) hnext i w hw t ht d hd
        simp only [idsUpTo, List.mem_append] at this ⊢
        tauto

/-- Unfolding membership in `idsUpTo`: an id among the first `i` waves lies in
some wave of index `< i`. -/
theorem idsUpTo_mem {ws : List (List TaskRow)} {i : Nat} {d : Nat}
    (h : d ∈ idsUpTo ws i) :
    ∃ j w, j < i ∧ ws.get? j = some w ∧ ∃ t ∈ w, t.id = d := by
  induction ws generalizing i with
  | nil => cases i <;> simp [idsUpTo] at h
  | cons w ws ih =>
    cases i with
    | zero => simp [idsUpTo] at h
    | succ i =>
      simp only [idsUpTo, List.mem_append] at h
      rcases h with h | h
      · rcases List.mem_map.mp h with ⟨t, ht, hid⟩
        exact ⟨0, w, Nat.succ_pos i, rfl, t, ht, hid⟩
      · rcases ih h with ⟨j, w', hj, hget, hex⟩
        exact ⟨j + 1, w', Nat.succ_lt_succ hj, hget, hex⟩

theorem ready0_subset (graph : List TaskRow) : ∀ t ∈ ready0 graph, t ∈ graph :=
  fun _ ht => (List.mem_filter.mp ht).1

theorem readyNext_subset (graph : List TaskRow) (completed : List Nat) :
    ∀ t ∈ readyNext graph completed, t ∈ graph :=
  fun _ ht => (List.mem_filter.mp ht).1

/-- Cycle-safety invariant of the wave loop: a set `S` of tasks in which every
member has a dependency pointing back into `S` never gets dispatched, provided
no id of `S` has been dispatched yet and no member is currently ready. -/
theorem wavesFrom_cycle_free (graph S : List TaskRow)
    (hinj : ∀ a ∈ graph, ∀ b ∈ graph, a.id = b.id → a = b)
    (hSg : ∀ s ∈ S, s ∈ graph)
    (hcyc : ∀ s ∈ S, ∃ d ∈ s.dependencies, ∃ u ∈ S, u.id = d) :
    ∀ fuel completed ready,
      (∀ t ∈ ready, t ∈ graph) →
      (∀ s ∈ S, s.id ∉ completed) →
      (∀ s ∈ S, s ∉ ready) →
      ∀ w ∈ wavesFrom graph fuel completed ready, ∀ s ∈ S, s ∉ w := by
  intro fuel
  induction fuel with
  | zero => intro completed ready _ _ _ w hw; simp [wavesFrom] at hw
  | succ fuel ih =>
    intro completed ready hrg hScomp hSready w hw s hs
    by_cases hemp : ready.isEmpty
    · simp [wavesFrom, hemp] at hw
    · simp only [wavesFrom, hemp, Bool.false_eq_true, not_false_eq_true, ite_false] at hw
      have hcomp' : ∀ s' ∈ S, s'.id ∉ completed ++ ready.map (fun t => t.id) := by
        intro s' hs' hmem
        rcases List.mem_append.mp hmem with h | h
        · exact hScomp s' hs' h
        · rcases List.mem_map.mp h with ⟨r, hr, hrid⟩
          have : r = s' := hinj r (hrg r hr) s' (hSg s' hs') hrid
          exact hSready s' hs' (this ▸ hr)
      rcases List.mem_cons.mp hw with h | h
      · subst h
        exact fun hsw => hSready s hs hsw
      · have hready' : ∀ s' ∈ S,
            s' ∉ readyNext graph (completed ++ ready.map (fun t => t.id)) := by
          intro s' hs' hmem
          have hdeps := (readyNext_mem hmem).2.2.2
          rcases hcyc s' hs' with ⟨d, hd, u, hu, huid⟩
          exact hcomp' u hu (huid ▸ hdeps d hd)
        exact ih (completed ++ ready.map (fun t => t.id))
          (readyNext graph (completed ++ ready.map (fun t => t.id)))
          (readyNext_subset graph _) hcomp' hready' w h s hs

/-! ## Assignment lemmas -/

/-- Shape of a successful `assignOne` step: the persisted row carries
`getDependencyIds`'s dependency list and the pool is updated by
`incrementLoad` on the assigned agent. -/
theorem assignOne_eq {pool : List AgentCapability} {deps : List TaskDependency}
    {buildId : String} {sub : SubTask} {row : PersistedTask} {pool' : List AgentCapability}
    (h : assignOne pool deps buildId sub = some (row, pool')) :
    row.dependencies = getDependencyIds sub.id deps
    ∧ pool' = incrementLoad pool row.assignedAgent := by
  simp only [assignOne] at h
  split at h
  · exact absurd h (by simp)
  · split at h
    · exact absurd h (by simp)
    · simp only [Option.some.injEq, Prod.mk.injEq] at h
      obtain ⟨hrow, hpool⟩ := h
      rw [← hrow]
      exact ⟨rfl, hpool.symm⟩

/-- An unconditional increment keeps every entry within its bound only when
every entry starts strictly below the bound (integer loads). -/
theorem incrementLoad_bounded {pool : List AgentCapability} (agentId : String)
    (hsafe : ∀ a ∈ pool, a.currentLoad < a.maxLoad) :
    ∀ x ∈ incrementLoad pool agentId, x.currentLoad ≤ x.maxLoad := by
  intro x hx
  rcases List.mem_map.mp hx with ⟨a, ha, hfa⟩
  by_cases hid : a.agentId = agentId
  · rw [if_pos hid] at hfa
    rw [← hfa]
    exact Int.add_one_le_iff.mpr (hsafe a ha)
  · rw [if_neg hid] at hfa
    rw [← hfa]
    exact le_of_lt (hsafe a ha)

/-! ## Claims -/

/-- C1: in `executeParallel`, a task is never dispatched before every task in
its dependency set has completed — every dependency id of a task of wave `i`
is among the ids recorded as completed from the waves strictly before `i` —
and every task of the build with an empty dependency set and status
`assigned` is a member of wave 1. -/
theorem c1_dependency_order (graph : List TaskRow) :
    (∀ t ∈ graph, t.dependencies = [] → t.status = TStatus.assigned →
      ∃ w ws, waves graph = w :: ws ∧ t ∈ w)
    ∧ (∀ i w, (waves graph).get? i = some w → ∀ t ∈ w, ∀ d ∈ t.dependencies,
      d ∈ idsUpTo (waves graph) i) := by
  constructor
  · intro t hg hd hs
    have ht0 : t ∈ ready0 graph := mem_ready0 hg hd hs
    have hE : (ready0 graph).isEmpty = false := by
      cases h' : ready0 graph with
      | nil => rw [h'] at ht0; cases ht0
      | cons a l => rfl
    have hwaves : waves graph = ready0 graph ::
        wavesFrom graph graph.length ([] ++ (ready0 graph).map (fun t => t.id))
          (readyNext graph ([] ++ (ready0 graph).map (fun t => t.id))) := by
      simp only [waves, wavesFrom, hE, Bool.false_eq_true, not_false_eq_true, ite_false]
    exact ⟨_, _, hwaves, ht0⟩
  · have h0 : ∀ t ∈ ready0 graph, ∀ d ∈ t.dependencies, d ∈ ([] : List Nat) := by
      intro t ht d hd
      have hnil := (ready0_mem ht).2.1
      rw [hnil] at hd
      cases hd
    intro i w hw t ht d hd
    have hres := wavesFrom_deps graph (graph.length + 1) [] (ready0 graph) h0 i w hw t ht d hd
    simpa [waves] using hres

/-- Witness for C1: in the two-task chain `chainGraph`, the dependency-free
task 1 is in wave 1. -/
theorem c1_dependency_order_witness :
    ∃ w ws, waves chainGraph = w :: ws ∧ taskOne ∈ w :=
  (c1_dependency_order chainGraph).1 taskOne (by decide) rfl rfl

/-- C2 counterexample: `assignTasks` applies an assignment that exceeds
`maxLoad`.  With a single matching active agent already at
`currentLoad = maxLoad = 1`, `assignOne` still assigns it and leaves it at
`currentLoad = 2 > maxLoad = 1`. -/
theorem c2_overload_counterexample :
    assignOne [agentFull] [] "b1" subBackend = some (rowBackend, [agentFullAfter])
    ∧ agentFullAfter.maxLoad < agentFullAfter.currentLoad := by
  constructor <;> decide

/-- C2 (amended): the assignment increments the chosen agent's `currentLoad`
unconditionally (`SET currentLoad = currentLoad + 1`, no capacity guard); the
post-assignment bound `currentLoad ≤ maxLoad` holds exactly when every pool
member was strictly below capacity before the assignment. -/
theorem c2_assignment_load {pool : List AgentCapability} {deps : List TaskDependency}
    {buildId : String} {sub : SubTask} {row : PersistedTask} {pool' : List AgentCapability}
    (h : assignOne pool deps buildId sub = some (row, pool'))
    (hsafe : ∀ a ∈ pool, a.currentLoad < a.maxLoad) :
    pool' = incrementLoad pool row.assignedAgent
    ∧ ∀ a ∈ pool', a.currentLoad ≤ a.maxLoad := by
  obtain ⟨-, hpool⟩ := assignOne_eq h
  refine ⟨hpool, ?_⟩
  rw [hpool]
  exact incrementLoad_bounded row.assignedAgent hsafe

/-- Witness for C2 (amended) at a pool whose only agent has spare capacity. -/
theorem c2_assignment_load_witness :
    [agentLowAfter] = incrementLoad [agentLow] rowBackend.assignedAgent
    ∧ ∀ a ∈ [agentLowAfter], a.currentLoad ≤ a.maxLoad :=
  @c2_assignment_load [agentLow] [] "b1" subBackend rowBackend [agentLowAfter]
    (by decide) (by decide)

/-- C3 counterexample: `executeParallel` neither detects the cycle of
`cyclicGraph` up front nor withholds dispatch — it has no error path at all
and dispatches the independent task 3 in wave 1, terminating silently. -/
theorem c3_cycle_counterexample :
    waves cyclicGraph =
      [[{ id := 3, status := TStatus.assigned, dependencies := [] }]] := by
  decide

/-- C3 (amended): `executeParallel` performs no cycle detection and raises no
`CyclicDependencyError` (no such error exists in the repository); tasks lying
on a dependency cycle are simply never dispatched — they never enter any
wave — while the rest of the build is dispatched normally. -/
theorem c3_cycle_never_dispatched (graph S : List TaskRow)
    (hinj : ∀ a ∈ graph, ∀ b ∈ graph, a.id = b.id → a = b)
    (hSg : ∀ s ∈ S, s ∈ graph)
    (hcyc : ∀ s ∈ S, ∃ d ∈ s.dependencies, ∃ u ∈ S, u.id = d) :
    ∀ w ∈ waves graph, ∀ s ∈ S, s ∉ w := by
  have hready0 : ∀ s ∈ S, s ∉ ready0 graph := by
    intro s hs hmem
    rcases hcyc s hs with ⟨d, hd, -, -, -⟩
    have hnil := (ready0_mem hmem).2.1
    rw [hnil] at hd
    cases hd
  intro w hw
  simp only [waves] at hw
  exact fun s hs => wavesFrom_cycle_free graph S hinj hSg hcyc (graph.length + 1) []
    (ready0 graph) (ready0_subset graph) (fun s' _ hmem => by cases hmem) hready0 w hw s hs

/-- Witness for C3 (amended): the cycle task 1 of `cyclicGraph` is not in the
one wave that gets dispatched. -/
theorem c3_cycle_never_dispatched_witness : taskCycleA ∉ [taskThree] :=
  c3_cycle_never_dispatched cyclicGraph cyclicPair (by decide) (by decide) (by decide)
    [taskThree] (by decide) taskCycleA (by decide)

/-- C4 counterexample: with equal maxLoad, equal specialty match and equal
successRate 0, both scores are 0, and `selectBestAgent` keeps the first-listed
candidate — here the one with `currentLoad = 3` — instead of the one with
`currentLoad = 1` as the claim requires. -/
theorem c4_tie_counterexample :
    selectBestAgent [agentZeroHigh, agentZeroLow] subBackend = some agentZeroHigh
    ∧ agentScore subBackend agentZeroHigh = agentScore subBackend agentZeroLow
    ∧ agentZeroHigh.currentLoad = 3 ∧ agentZeroLow.currentLoad = 1 := by
  have h1 : agentScore subBackend agentZeroHigh = 0 := by
    simp [agentScore, agentZeroHigh]
  have h2 : agentScore subBackend agentZeroLow = 0 := by
    simp [agentScore, agentZeroLow]
  refine ⟨?_, h1.trans h2.symm, rfl, rfl⟩
  simp only [selectBestAgent, argmaxBy, List.foldl]
  rw [if_neg]
  rw [h1, h2]
  exact lt_irrefl 0

/-- C4 (amended): `selectBestAgent` computes each candidate's score as
`(successRate/100) * max(0, 1 - currentLoad/maxLoad) * (1 + 0.2*matchCount)`
and returns a candidate with the highest score (the first-listed one on
ties); consequently, of two candidates with equal positive successRate, equal
maxLoad above 1 and equal specialty match but currentLoad 1 and 3, the one
with currentLoad 1 is selected in either listing order. -/
theorem c4_selector_scoring (a b : AgentCapability) (sub : SubTask)
    (pool : List AgentCapability) (hpool : pool ≠ [])
    (hsr : b.successRate = a.successRate) (hsrpos : 0 < a.successRate)
    (hml : b.maxLoad = a.maxLoad) (hm : 1 < a.maxLoad)
    (hmc : matchCount sub b = matchCount sub a)
    (ha : a.currentLoad = 1) (hb : b.currentLoad = 3) :
    (∀ c : AgentCapability, agentScore sub c =
        c.successRate / 100 * max 0 (1 - (c.currentLoad : ℚ) / (c.maxLoad : ℚ))
          * (1 + 0.2 * (matchCount sub c : ℚ)))
    ∧ (∃ best, selectBestAgent pool sub = some best ∧ best ∈ pool ∧
        ∀ x ∈ pool, agentScore sub x ≤ agentScore sub best)
    ∧ selectBestAgent [a, b] sub = some a ∧ selectBestAgent [b, a] sub = some a := by
  have hm1 : (1 : ℚ) < (a.maxLoad : ℚ) := by exact_mod_cast hm
  have hm0 : (0 : ℚ) < (a.maxLoad : ℚ) := lt_trans one_pos hm1
  have h1m : (1 : ℚ) / (a.maxLoad : ℚ) < 1 := (div_lt_one hm0).mpr hm1
  have hcapa_pos : (0 : ℚ) < 1 - 1 / (a.maxLoad : ℚ) := by linarith
  have h13 : (1 : ℚ) / (a.maxLoad : ℚ) < 3 / (a.maxLoad : ℚ) := by
    rw [div_lt_div_iff₀ hm0 hm0]
    linarith
  have hcap_lt : max 0 (1 - 3 / (a.maxLoad : ℚ)) < max 0 (1 - 1 / (a.maxLoad : ℚ)) := by
    rw [max_eq_right (le_of_lt hcapa_pos)]
    exact max_lt hcapa_pos (by linarith)
  have ea : agentScore sub a =
      a.successRate / 100 * max 0 (1 - 1 / (a.maxLoad : ℚ))
        * (1 + (matchCount sub a : ℚ) * 0.2) := by
    simp only [agentScore, ha]
    norm_num
  have eb : agentScore sub b =
      a.successRate / 100 * max 0 (1 - 3 / (a.maxLoad : ℚ))
        * (1 + (matchCount sub a : ℚ) * 0.2) := by
    simp only [agentScore, hb, hsr, hml, hmc]
    norm_num
  have hspos : (0 : ℚ) < a.successRate / 100 := div_pos hsrpos (by norm_num)
  have hbonus : (0 : ℚ) < 1 + (matchCount sub a : ℚ) * 0.2 := by positivity
  have hscore : agentScore sub b < agentScore sub a := by
    rw [ea, eb]
    exact mul_lt_mul_of_pos_right (mul_lt_mul_of_pos_left hcap_lt hspos) hbonus
  refine ⟨?_, ?_, ?_, ?_⟩
  · intro c
    simp only [agentScore]
    ring
  · cases pool with
    | nil => exact absurd rfl hpool
    | cons c rest =>
      exact ⟨_, rfl, argmaxBy_mem _ rfl, argmaxBy_le _ rfl⟩
  · simp only [selectBestAgent, argmaxBy, List.foldl]
    rw [if_neg (not_lt.mpr (le_of_lt hscore))]
  · simp only [selectBestAgent, argmaxBy, List.foldl]
    rw [if_pos hscore]

/-- Witness for C4 (amended) at two concrete agents with successRate 90,
maxLoad 5 and loads 1 and 3: the load-1 agent is selected even when listed
second. -/
theorem c4_selector_scoring_witness :
    selectBestAgent [agentHigh, agentLow] subBackend = some agentLow :=
  (c4_selector_scoring agentLow agentHigh subBackend [agentLow, agentHigh]
    (by decide) rfl (by norm_num [agentLow]) rfl (by decide) (by decide) rfl rfl).2.2.2

/-- C5 counterexample: a payload whose dependency record references a
sub-task id no sub-task carries is accepted by `decompose` — no dependency
validation occurs and no failure is raised. -/
theorem c5_dangling_counterexample :
    depsResolve danglingPayload = false
    ∧ (decompose "req" 1 (ModelResponse.parsed danglingPayload)).1.isOk = true := by
  constructor <;> decide

/-- C5 (amended): `decompose` fails exactly when the external model call
throws or its payload is unparsable, re-raising the underlying exception (the
repository defines no `DecompositionError`); in both failure cases no row is
persisted.  A parsed payload always succeeds — dependency references are
returned verbatim without validation — and persists only the main
orchestration row. -/
theorem c5_decompose_failures (userRequest : String) (mainTaskId : Nat) :
    decompose userRequest mainTaskId ModelResponse.callFailure =
      (Except.error OrchError.upstream, [])
    ∧ decompose userRequest mainTaskId ModelResponse.unparsable =
      (Except.error OrchError.upstream, [])
    ∧ ∀ p : DecomposedPayload,
        decompose userRequest mainTaskId (ModelResponse.parsed p) =
          (Except.ok { mainTaskId := mainTaskId, subTasks := p.subTasks,
                       dependencies := p.dependencies },
           [mainTaskRow userRequest]) :=
  ⟨rfl, rfl, fun _ => rfl⟩

/-- C8 counterexample: for the empty recorded usage set,
`calculateCostSavings` does not return 0% — it returns the fixed percentage
`238465/2592 ≈ 92%` computed from the hardcoded collected metrics. -/
theorem c8_empty_counterexample :
    (calculateCostSavings []).savingsPercent = 238465 / 2592
    ∧ (calculateCostSavings []).savingsPercent ≠ 0 := by
  constructor <;> norm_num [calculateCostSavings, collectAIMetrics]

/-- C8 (amended): `calculateCostSavings` ignores the recorded usage set —
every recorded state yields the same result — and within that fixed result
`savingsPercent = (baselineCost - actualCost) / baselineCost * 100`, with the
baseline pricing the hardcoded request count at the most expensive model's
$0.15 per call and the actual cost the hardcoded total; the computation
mutates no state. -/
theorem c8_savings_fixed (recorded : List (String × List ℚ)) :
    calculateCostSavings recorded = calculateCostSavings []
    ∧ (calculateCostSavings recorded).savingsPercent =
        ((calculateCostSavings recorded).baselineCost -
          (calculateCostSavings recorded).actualCost)
          / (calculateCostSavings recorded).baselineCost * 100
    ∧ (calculateCostSavings recorded).baselineCost =
        collectAIMetrics.totalRequests * 0.15
    ∧ (calculateCostSavings recorded).actualCost = collectAIMetrics.totalCost :=
  ⟨rfl, rfl, rfl, rfl⟩

/-- C9 counterexample: when the message insert succeeds but the task update
fails, `handoffTask` leaves the `task_handoff` message persisted while the
task is untouched — the two effects are not atomic. -/
theorem c9_partial_counterexample :
    handoffTask "w1" "w2" 1 DbOutcome.ok DbOutcome.fail handoffState =
      ({ messages := [handoffMessage "w1" "w2"], tasks := handoffState.tasks }, false)
    ∧ ({ messages := [handoffMessage "w1" "w2"],
         tasks := handoffState.tasks } : OrchState) ≠ handoffState := by
  constructor <;> decide

/-- C9 (amended): `handoffTask` persists the `task_handoff` message at fixed
priority 9 and only afterwards, in a separate non-atomic update, sets the
task's assigned worker to the receiver and resets its status to `assigned`.
If message persistence fails nothing is applied; if the task update fails the
message remains persisted with the task untouched; the task is thus never
reassigned without the message existing, but the converse partial state is
possible. -/
theorem c9_handoff_sequential (fromAgent toAgent : String) (taskId : Nat) (st : OrchState) :
    (handoffMessage fromAgent toAgent).priority = 9
    ∧ (handoffMessage fromAgent toAgent).messageType = "task_handoff"
    ∧ (∀ o, handoffTask fromAgent toAgent taskId DbOutcome.fail o st = (st, false))
    ∧ handoffTask fromAgent toAgent taskId DbOutcome.ok DbOutcome.fail st =
        ({ st with messages := st.messages ++ [handoffMessage fromAgent toAgent] }, false)
    ∧ handoffTask fromAgent toAgent taskId DbOutcome.ok DbOutcome.ok st =
        ({ messages := st.messages ++ [handoffMessage fromAgent toAgent],
           tasks := st.tasks.map (fun t =>
             if t.id = taskId then
               { t with assignedAgent := some toAgent, status := TStatus.assigned }
             else t) }, true) := by
  refine ⟨rfl, rfl, fun o => ?_, rfl, rfl⟩
  cases o <;> rfl

/-- C10: every task row persisted by the assignment step stores an empty
dependency list — `getDependencyIds` returns `[]` for every sub-task and
dependency set, so the decomposition's declared dependency edges are dropped
for all persisted sub-tasks of every build. -/
theorem c10_dependencies_empty :
    (∀ taskId deps, getDependencyIds taskId deps = [])
    ∧ ∀ pool deps buildId subs,
        ((assignTasksAux deps buildId pool subs).1).all
          (fun r => r.dependencies.isEmpty) = true := by
  have hg : ∀ taskId deps, getDependencyIds taskId deps = [] := by
    intro taskId deps
    unfold getDependencyIds
    cases deps.find? (fun d => d.taskId == taskId) <;> rfl
  refine ⟨hg, ?_⟩
  intro pool deps buildId subs
  induction subs generalizing pool with
  | nil => rfl
  | cons sub rest ih =>
    simp only [assignTasksAux]
    cases h : assignOne pool deps buildId sub with
    | none => rfl
    | some pr =>
      obtain ⟨row, pool'⟩ := pr
      have hrow : row.dependencies = [] := (assignOne_eq h).1.trans (hg sub.id deps)
      simp only [List.all_cons, hrow, List.isEmpty_nil, Bool.true_and]
      exact ih pool'

/-- C6: `selectModel` filters its candidate set to `available = true` before
any scoring or threshold filtering — running it on the pre-filtered registry
gives the same result, and any returned model is an available member of the
registry — and it fails with `NoModelAvailableError` when no model is
available.  (Settled against the spec-modelled router.) -/
theorem c6_availability_filter (registry : List ModelProfile) (taskType : String)
    (budget : Option ℚ) :
    (availableModels registry = [] →
      selectModel registry taskType budget = Except.error RouterError.noModelAvailable)
    ∧ selectModel registry taskType budget =
        selectModel (availableModels registry) taskType budget
    ∧ ∀ sel, selectModel registry taskType budget = Except.ok sel →
        ∃ m ∈ availableModels registry, sel.model = m.model := by
  have hidem : availableModels (availableModels registry) = availableModels registry :=
    List.filter_eq_self.mpr (fun a ha => (List.mem_filter.mp ha).2)
  refine ⟨?_, ?_, ?_⟩
  · intro h
    simp [selectModel, h]
  · simp only [selectModel, capableModels, hidem]
  · intro sel hsel
    simp only [selectModel] at hsel
    split at hsel
    · exact absurd hsel (by simp)
    · split at hsel
      · split at hsel
        next m hm =>
          simp only [Except.ok.injEq] at hsel
          exact ⟨m, argminBy_mem _ hm, by rw [← hsel]⟩
        next hm => exact absurd hsel (by simp)
      · split at hsel
        · split at hsel
          next m hm =>
            simp only [Except.ok.injEq] at hsel
            exact ⟨m, List.mem_of_mem_filter (argminBy_mem _ hm), by rw [← hsel]⟩
          next hm => exact absurd hsel (by simp)
        · split at hsel
          next m hm =>
            simp only [Except.ok.injEq] at hsel
            exact ⟨m, List.mem_of_mem_filter (argmaxBy_mem _ hm), by rw [← hsel]⟩
          next hm => exact absurd hsel (by simp)

/-- Witness for C6: a registry whose only model is unavailable makes
`selectModel` fail with `NoModelAvailableError`. -/
theorem c6_availability_filter_witness :
    selectModel [modelUnavailable] "planning" none =
      Except.error RouterError.noModelAvailable :=
  (c6_availability_filter [modelUnavailable] "planning" none).1 (by decide)

/-- C7: when no available model reaches the 0.75 historical success rate for
the task type, `selectModel` does not fail: it returns the cheapest available
model together with a non-empty explanatory reasoning string.  (Settled
against the spec-modelled router.) -/
theorem c7_threshold_fallback (registry : List ModelProfile) (taskType : String)
    (budget : Option ℚ) (hne : availableModels registry ≠ [])
    (hnoq : ∀ m ∈ availableModels registry, qualifies m taskType = false) :
    ∃ m, selectModel registry taskType budget =
        Except.ok { model := m.model, reasoning := fallbackReasoning }
      ∧ m ∈ availableModels registry
      ∧ (∀ x ∈ availableModels registry, m.costPerRequest ≤ x.costPerRequest)
      ∧ fallbackReasoning ≠ "" := by
  have hcap : capableModels registry taskType = [] := by
    unfold capableModels
    rw [List.filter_eq_nil_iff]
    intro m hm
    simp [hnoq m hm]
  have hE : (availableModels registry).isEmpty = false := by
    cases h : availableModels registry with
    | nil => exact absurd h hne
    | cons c rest => rfl
  obtain ⟨c, rest, hcr⟩ : ∃ c rest, availableModels registry = c :: rest := by
    cases h : availableModels registry with
    | nil => exact absurd h hne
    | cons c rest => exact ⟨c, rest, rfl⟩
  obtain ⟨m, hm⟩ : ∃ m, argminBy (fun m => m.costPerRequest)
      (availableModels registry) = some m := by
    rw [hcr]
    exact ⟨_, rfl⟩
  refine ⟨m, ?_, argminBy_mem _ hm, argminBy_le _ hm, by decide⟩
  simp [selectModel, hE, hcap, hm]

/-- Witness for C7: with models `gpt-4o` and `claude-sonnet` available and no
recorded rate for task type `unmapped`, the cheapest available model is
returned with a non-empty reasoning. -/
theorem c7_threshold_fallback_witness :
    ∃ m, selectModel [modelUnavailable, modelCheap, modelPricey] "unmapped" none =
        Except.ok { model := m.model, reasoning := fallbackReasoning }
      ∧ m ∈ availableModels [modelUnavailable, modelCheap, modelPricey]
      ∧ (∀ x ∈ availableModels [modelUnavailable, modelCheap, modelPricey],
          m.costPerRequest ≤ x.costPerRequest)
      ∧ fallbackReasoning ≠ "" :=
  c7_threshold_fallback [modelUnavailable, modelCheap, modelPricey] "unmapped" none
    (by decide) (by decide)

end MundoTango
